import Mathlib

/-!
Verification of the section-production engine of the LongTextAgent repository.

The Python sources are shallowly embedded:
* Python strings become `List Char` (abbreviated `Str`);
* Python numbers that carry scores or delays become `Int` / `Nat`
  (the repository only ever compares and adds them; fractional values are
  not needed by any property checked here, and formatting of an embedded
  number uses the integer rendering);
* fallible Python code (raising exceptions) becomes `Except Str`;
* the generative-model endpoint, whose replies are external input, becomes
  an explicit oracle argument (`Nat → Str` and friends);
* thread pools collected with `as_completed` deliver results in a
  scheduler-chosen order, so the collected lists are taken as inputs in
  that (arbitrary) arrival order.

Sources embedded: `src/utils/text_utils.py` (`count_words`),
`src/agents/writer.py` (`Writer.write_section`, `ModeConfig`),
`src/agents/drama_evaluator.py` (`DramaEvaluator`),
`src/utils/llm_client.py` (`with_retry`).
-/

abbrev Str := List Char

/-- The character `{` (written via its code point). -/
def lb : Char := Char.ofNat 123

/-- The character `}` (written via its code point). -/
def rb : Char := Char.ofNat 125

/-- The backquote character (written via its code point). -/
def bq : Char := Char.ofNat 96

/-- `src/utils/text_utils.py`, `count_words` line 37: the regex class
`[一-鿿]` — CJK unified ideographs. -/
def isCJK (c : Char) : Bool := decide (0x4E00 ≤ c.toNat ∧ c.toNat ≤ 0x9FFF)

/-- The whitespace set of Python `str.split()` / `str.strip()` (all
characters for which `str.isspace()` holds). -/
def isPySpace (c : Char) : Bool :=
  decide (c.toNat ∈ [9, 10, 11, 12, 13, 28, 29, 30, 31, 32, 133, 160,
    0x1680, 0x2000, 0x2001, 0x2002, 0x2003, 0x2004, 0x2005, 0x2006, 0x2007,
    0x2008, 0x2009, 0x200A, 0x2028, 0x2029, 0x202F, 0x205F, 0x3000])

/-- Token counter behind Python `text.split()` (no separator argument):
number of maximal runs of non-whitespace characters.  The boolean records
whether the previous character was inside a token. -/
def countTokensAux : Bool → Str → Nat
  | _, [] => 0
  | inTok, c :: rest =>
    if isPySpace c then countTokensAux false rest
    else (if inTok then 0 else 1) + countTokensAux true rest

/-- `len(text.split())` for a Python string. -/
def pySplitCount (s : Str) : Nat := countTokensAux false s

/-- `src/utils/text_utils.py` lines 24–43, `count_words`: number of CJK
characters plus the number of whitespace-separated tokens of the text with
every CJK character replaced by a space. -/
def count_words (text : Str) : Nat :=
  (text.filter isCJK).length +
    pySplitCount (text.map (fun c => if isCJK c then ' ' else c))

/-- Maximal runs of characters satisfying `p` (used to restate
`count_words` without the intermediate CJK-to-space substitution). -/
def countRunsAux (p : Char → Bool) : Bool → Str → Nat
  | _, [] => 0
  | inRun, c :: rest =>
    if p c then (if inRun then 0 else 1) + countRunsAux p true rest
    else countRunsAux p false rest

/-- A character that is neither Python whitespace nor a CJK ideograph:
the characters a `count_words` token is made of. -/
def isTokenChar (c : Char) : Bool := !isPySpace c && !isCJK c

/-- Python `str.strip()`: drop leading and trailing whitespace. -/
def pyStrip (s : Str) : Str :=
  ((s.dropWhile isPySpace).reverse.dropWhile isPySpace).reverse

/-- `src/agents/writer.py` line 446: the separator `"\n\n"` put between the
accumulated text and each continuation chunk. -/
def sep_nn : Str := ['\n', '\n']

/-- `src/agents/writer.py` line 406: `max_continuations = 8`. -/
def max_continuations : Nat := 8

/-- One iteration body of the continuation loop, `src/agents/writer.py`
lines 443–447: an empty (falsy) chunk leaves the text unchanged, otherwise
the stripped chunk is appended after `"\n\n"`. -/
def expand_step (chunk acc : Str) : Str :=
  if chunk = [] then acc else acc ++ sep_nn ++ pyStrip chunk

/-- The continuation (inflation) loop of `Writer.write_section`,
`src/agents/writer.py` lines 408–449.  `chunks r` is the model reply of
iteration `r`; the loop variable `current_words` always equals
`count_words` of the accumulated text, so it is recomputed here.  Returns
the final text and the number of iterations run. -/
def expand_go (chunks : Nat → Str) (target : Nat) : Str → Nat → Nat → Str × Nat
  | acc, retries, 0 => (acc, retries)
  | acc, retries, fuel + 1 =>
    if count_words acc < target ∧ retries < max_continuations then
      expand_go chunks target (expand_step (chunks retries) acc) (retries + 1) fuel
    else (acc, retries)

/-- The continuation loop started on the phase-1 text `init` with
`continuation_retries = 0`; `max_continuations` fuel is enough because each
iteration increments `continuation_retries`. -/
def expand (chunks : Nat → Str) (target : Nat) (init : Str) : Str × Nat :=
  expand_go chunks target init 0 max_continuations

/-- `src/agents/writer.py` lines 451–461: after the loop the final word
count is reported (and `current_words >= target_words` decides between the
success and the safety-valve message).  Returns (text, word count, met?). -/
def expand_report (chunks : Nat → Str) (target : Nat) (init : Str) :
    Str × Nat × Bool :=
  let r := expand chunks target init
  (r.1, count_words r.1, decide (target ≤ count_words r.1))

lemma countTokensAux_ws_prefix (sp : Str) (h : ∀ c ∈ sp, isPySpace c = true) :
    ∀ y, countTokensAux false (sp ++ y) = countTokensAux false y := by
  induction sp with
  | nil => intro y; rfl
  | cons c cs ih =>
    intro y
    have hc : isPySpace c = true := h c (List.mem_cons_self _ _)
    simp only [List.cons_append, countTokensAux, hc, if_true]
    exact ih (fun d hd => h d (List.mem_cons_of_mem _ hd)) y

lemma countTokensAux_ws_prefix' (sp : Str) (h : ∀ c ∈ sp, isPySpace c = true)
    (hne : sp ≠ []) (b : Bool) :
    ∀ y, countTokensAux b (sp ++ y) = countTokensAux false y := by
  intro y
  cases sp with
  | nil => exact absurd rfl hne
  | cons c cs =>
    have hc : isPySpace c = true := h c (List.mem_cons_self _ _)
    simp only [List.cons_append, countTokensAux, hc, if_true]
    exact countTokensAux_ws_prefix cs
      (fun d hd => h d (List.mem_cons_of_mem _ hd)) y

lemma countTokensAux_append_ws (sp : Str) (h : ∀ c ∈ sp, isPySpace c = true)
    (hne : sp ≠ []) (y : Str) :
    ∀ (x : Str) (b : Bool),
      countTokensAux b (x ++ sp ++ y) =
        countTokensAux b x + countTokensAux false y := by
  intro x
  induction x with
  | nil =>
    intro b
    rw [List.nil_append, countTokensAux_ws_prefix' sp h hne b y]
    simp [countTokensAux]
  | cons c cs ih =>
    intro b
    by_cases hc : isPySpace c = true
    · simp only [List.cons_append, countTokensAux, hc, if_true, List.append_eq]
      have := ih false
      simp only [List.append_eq] at this ⊢
      rw [this]
    · have hc' : isPySpace c = false := by
        cases hcv : isPySpace c with
        | false => rfl
        | true => exact absurd hcv hc
      simp only [List.cons_append, countTokensAux, hc', if_false,
        Bool.false_eq_true, List.append_eq]
      have := ih true
      simp only [List.append_eq] at this ⊢
      rw [this]
      omega

lemma sep_nn_ws : ∀ c ∈ sep_nn, isPySpace c = true := by
  intro c hc
  simp only [sep_nn, List.mem_cons, List.mem_singleton] at hc
  rcases hc with h | h | h
  · subst h; decide
  · subst h; decide
  · exact absurd h (List.not_mem_nil c)

lemma count_words_append_sep (a b : Str) :
    count_words (a ++ sep_nn ++ b) = count_words a + count_words b := by
  unfold count_words pySplitCount
  have hfilter : (a ++ sep_nn ++ b).filter isCJK =
      a.filter isCJK ++ b.filter isCJK := by
    have hsep : sep_nn.filter isCJK = [] := by decide
    simp [List.filter_append, hsep]
  have hmapsep : sep_nn.map (fun c => if isCJK c then ' ' else c) = sep_nn := by
    decide
  have hws : ∀ c ∈ sep_nn, isPySpace c = true := sep_nn_ws
  have hne : sep_nn ≠ [] := by decide
  rw [hfilter]
  simp only [List.map_append, hmapsep, List.length_append]
  have htok := countTokensAux_append_ws sep_nn hws hne
    (b.map (fun c => if isCJK c then ' ' else c))
    (a.map (fun c => if isCJK c then ' ' else c)) false
  rw [List.append_assoc] at htok ⊢
  rw [htok]
  omega

lemma countTokensAux_map_repl (t : Str) :
    ∀ b, countTokensAux b (t.map (fun c => if isCJK c then ' ' else c)) =
      countRunsAux isTokenChar b t := by
  induction t with
  | nil => intro b; rfl
  | cons c cs ih =>
    intro b
    by_cases hcjk : isCJK c = true
    · have hsp : isPySpace ' ' = true := by decide
      have htc : isTokenChar c = false := by
        simp [isTokenChar, hcjk]
      simp only [List.map_cons, hcjk, if_true, countTokensAux, hsp,
        countRunsAux, htc, if_false, Bool.false_eq_true]
      exact ih false
    · have hcjk' : isCJK c = false := by
        cases hv : isCJK c with
        | false => rfl
        | true => exact absurd hv hcjk
      by_cases hsp : isPySpace c = true
      · have htc : isTokenChar c = false := by simp [isTokenChar, hsp]
        simp only [List.map_cons, hcjk', if_false, countTokensAux, hsp,
          countRunsAux, htc, Bool.false_eq_true]
        exact ih false
      · have hsp' : isPySpace c = false := by
          cases hv : isPySpace c with
          | false => rfl
          | true => exact absurd hv hsp
        have htc : isTokenChar c = true := by simp [isTokenChar, hsp', hcjk']
        simp only [List.map_cons, hcjk', if_false, countTokensAux, hsp',
          countRunsAux, htc, if_true, Bool.false_eq_true]
        rw [ih true]

lemma expand_step_mono (chunk acc : Str) :
    count_words acc ≤ count_words (expand_step chunk acc) := by
  unfold expand_step
  by_cases h : chunk = []
  · simp [h]
  · simp only [h, if_false]
    rw [count_words_append_sep]
    omega

lemma expand_go_mono (chunks : Nat → Str) (target : Nat) :
    ∀ (fuel : Nat) (acc : Str) (retries : Nat),
      count_words acc ≤ count_words (expand_go chunks target acc retries fuel).1 := by
  intro fuel
  induction fuel with
  | zero => intro acc retries; exact Nat.le_refl _
  | succ f ih =>
    intro acc retries
    unfold expand_go
    by_cases h : count_words acc < target ∧ retries < max_continuations
    · rw [if_pos h]
      exact Nat.le_trans (expand_step_mono (chunks retries) acc)
        (ih (expand_step (chunks retries) acc) (retries + 1))
    · rw [if_neg h]

lemma expand_go_retries_le (chunks : Nat → Str) (target : Nat) :
    ∀ (fuel : Nat) (acc : Str) (retries : Nat),
      (expand_go chunks target acc retries fuel).2 ≤ retries + fuel := by
  intro fuel
  induction fuel with
  | zero => intro acc retries; exact Nat.le_refl _
  | succ f ih =>
    intro acc retries
    unfold expand_go
    by_cases h : count_words acc < target ∧ retries < max_continuations
    · rw [if_pos h]
      have := ih (expand_step (chunks retries) acc) (retries + 1)
      omega
    · rw [if_neg h]
      omega

/-- The always-100-CJK-character chunk oracle of the P3 scenario. -/
def scenario_chunks : Nat → Str := fun _ => List.replicate 100 '测'

/-- C10: `count_words` equals the number of CJK characters plus the number
of whitespace-separated maximal non-CJK tokens, and is additive over the
continuation loop's `"\n\n"` separator. -/
theorem count_words_characterization_and_additive :
    (∀ t : Str, count_words t =
      (t.filter isCJK).length + countRunsAux isTokenChar false t) ∧
    (∀ a b : Str, count_words (a ++ sep_nn ++ b) =
      count_words a + count_words b) := by
  constructor
  · intro t
    unfold count_words pySplitCount
    rw [countTokensAux_map_repl t false]
  · exact count_words_append_sep

/-- C4: the length measured by `count_words` over the accumulated text is
monotonically non-decreasing: each continuation iteration (any chunk,
including an empty one) can only keep or grow it, hence the whole loop
never shrinks it. -/
theorem expand_monotone :
    (∀ chunk acc : Str, count_words acc ≤ count_words (expand_step chunk acc)) ∧
    (∀ (chunks : Nat → Str) (target : Nat) (init : Str),
      count_words init ≤ count_words (expand chunks target init).1) := by
  constructor
  · exact expand_step_mono
  · intro chunks target init
    exact expand_go_mono chunks target max_continuations init 0

set_option maxRecDepth 100000 in
/-- C3: the continuation loop always terminates after at most
`max_continuations = 8` iterations, whatever the target and the model
chunks; in the P3 scenario (target 1000, every chunk 100 CJK characters,
empty initial text) it runs exactly 8 iterations, ends at 800 words and
reports the target as unmet. -/
theorem expand_terminates :
    (∀ (chunks : Nat → Str) (target : Nat) (init : Str),
      (expand chunks target init).2 ≤ max_continuations) ∧
    (expand scenario_chunks 1000 []).2 = 8 ∧
    (expand_report scenario_chunks 1000 []).2.1 = 800 ∧
    (expand_report scenario_chunks 1000 []).2.2 = false := by
  refine ⟨?_, ?_, ?_, ?_⟩
  · intro chunks target init
    have := expand_go_retries_le chunks target max_continuations init 0
    simpa [expand] using this
  · decide
  · decide
  · decide

/-! ## The branch-exploration (Tree-of-Thoughts) phase of `Writer.write_section`

`src/agents/writer.py` lines 292–397.  The evaluator reply tuple
`(passed, score, feedback, rewrite_directive) + (content,)` (line 359)
becomes `EvalT`; the judge's `rewrite_directive` is an arbitrary JSON value
in the source (whatever `eval_data.get('revision_plan', '')` returned), so
it is embedded as `JVal`.  Each round's generated branches and their
completed evaluations arrive through `as_completed` in scheduler order;
they enter the embedding as round-indexed oracles `genO` / `evalO` whose
lists are already in that arrival order (failed workers are dropped before
the lists are formed, see `collect_branches` below). -/

/-- JSON values as produced by Python's `json.loads` (numbers restricted to
integers — the only numbers the judge schema compares or adds). -/
inductive JVal where
  | null : JVal
  | bool : Bool → JVal
  | num : Int → JVal
  | str : Str → JVal
  | arr : List JVal → JVal
  | obj : List (Str × JVal) → JVal
deriving Inhabited

/-- One evaluated branch: the tuple built at `src/agents/writer.py` line
359, `self.evaluator.evaluate_section(content) + (content,)`. -/
structure EvalT where
  passed : Bool
  score : Int
  feedback : Str
  directive : JVal
  content : Str
deriving Inhabited

/-- Python `str()` of a JSON value as interpolated by an f-string (scalar
renderings are exact up to the integer embedding of numbers; container
renderings keep structure but elide Python's `repr` quoting, which no
checked property inspects). -/
def pyStrOf : JVal → Str
  | .null => "None".data
  | .bool true => "True".data
  | .bool false => "False".data
  | .num n => (toString n).data
  | .str s => s
  | .arr xs => '[' :: (joinComma (pyStrList xs) ++ [']'])
  | .obj kvs => lb :: (joinComma (pyStrKVs kvs) ++ [rb])
where
  joinComma : List Str → Str
    | [] => []
    | [x] => x
    | x :: xs => x ++ (", ".data) ++ joinComma xs
  pyStrList : List JVal → List Str
    | [] => []
    | v :: vs => pyStrOf v :: pyStrList vs
  pyStrKVs : List (Str × JVal) → List Str
    | [] => []
    | (k, v) :: r => (k ++ (": ".data) ++ pyStrOf v) :: pyStrKVs r

/-- Stable insertion used by `evaluated_branches.sort(key=lambda x: x[1],
reverse=True)` (`src/agents/writer.py` line 379): Python's sort is stable,
so among equal scores earlier arrivals stay earlier. -/
def insertDesc (x : EvalT) : List EvalT → List EvalT
  | [] => [x]
  | y :: ys => if x.score ≥ y.score then x :: y :: ys else y :: insertDesc x ys

/-- `evaluated_branches.sort(key=lambda x: x[1], reverse=True)`. -/
def sort_desc : List EvalT → List EvalT
  | [] => []
  | x :: xs => insertDesc x (sort_desc xs)

/-- The earliest (by list position) element of maximal score — what the
head of the stable descending sort is. -/
def selectBest : List EvalT → Option EvalT
  | [] => none
  | x :: xs => some (xs.foldl (fun b e => if e.score > b.score then e else b) x)

/-- `src/agents/writer.py` line 341. -/
def msg_gen_fail : Str := "生成请求全部失败，请重试。".data

/-- `src/agents/writer.py` line 345. -/
def msg_fatal : Str :=
  "【系统提示：因大模型 API 多次调用失败，此处内容生成缺失，请检查网络或 API 密钥配置。】".data

/-- `src/agents/writer.py` line 371. -/
def msg_eval_fail : Str := "评估过程异常，请重试。".data

/-- `src/agents/writer.py` line 375 (fallback when `branches` were lost). -/
def msg_no_eval : Str := "【系统提示：内容生成了但评估彻底失效】".data

/-- One aggregation line, `src/agents/writer.py` line 390:
`f"【分支 {idx+1} ({b[1]}分) 问题】: {b[3]}"`. -/
def tagLine (idx : Nat) (b : EvalT) : Str :=
  "【分支 ".data ++ (toString (idx + 1)).data ++ " (".data ++
    (toString b.score).data ++ "分) 问题】: ".data ++ pyStrOf b.directive

/-- `"\n".join(...)`. -/
def joinNL : List Str → Str
  | [] => []
  | [x] => x
  | x :: xs => x ++ ['\n'] ++ joinNL xs

/-- `src/agents/writer.py` lines 390–391: the aggregated directive built by
enumerating the (already sorted) evaluated branches. -/
def aggregate (evals : List EvalT) : Str :=
  joinNL (evals.enum.map (fun p => tagLine p.1 p.2))

/-- Outcome of one round body: either the loop breaks with a final text
(`accepted` records whether the break was the judge-passed break at line
383–386, as opposed to one of the forced-adoption breaks), or another
round follows carrying the new `current_feedback_directive`. -/
inductive StepOut where
  | done : Str → Bool → StepOut
  | next : Str → StepOut

/-- The body of the `while retries <= max_retries` loop of
`Writer.write_section` in drama mode, `src/agents/writer.py` lines
310–397, for one round: `branches` and `evals` are the generation and
evaluation results that survived (arrival order), `retries` the loop
counter at entry. -/
def roundStep (branches : List Str) (evals : List EvalT)
    (retries maxRetries : Nat) : StepOut :=
  match branches with
  | [] =>
    -- lines 340–347: all generation calls failed
    if retries + 1 > maxRetries then .done msg_fatal false else .next msg_gen_fail
  | b0 :: _ =>
    match evals with
    | [] =>
      -- lines 370–377: evaluation produced nothing
      if retries + 1 > maxRetries then .done b0 false else .next msg_eval_fail
    | _ :: _ =>
      match sort_desc evals with
      | [] => .next msg_eval_fail   -- unreachable: sorting preserves length
      | best :: rest =>
        if best.passed then .done best.content true
        else if retries + 1 > maxRetries then .done best.content false
        else .next (aggregate (best :: rest))

/-- Result of the whole phase-1 loop: final text, whether it was accepted
by the judge, and how many generation rounds ran. -/
structure TotResult where
  content : Str
  accepted : Bool
  rounds : Nat
deriving Inhabited

/-- The `while retries <= max_retries` loop, fuel-based (each iteration
increments `retries`, so `maxRetries + 1` fuel always suffices).
`genO r` / `evalO r bs` are the surviving generation/evaluation results of
round `r` (the revision directive influences them only through the prompt,
which the oracles absorb). -/
def tot_go (genO : Nat → List Str) (evalO : Nat → List Str → List EvalT)
    (maxRetries : Nat) : Nat → Nat → TotResult
  | retries, 0 => ⟨[], false, retries⟩
  | retries, fuel + 1 =>
    match roundStep (genO retries) (evalO retries (genO retries)) retries maxRetries with
    | .done c a => ⟨c, a, retries + 1⟩
    | .next _ => tot_go genO evalO maxRetries (retries + 1) fuel

/-- The phase-1 loop of `Writer.write_section` started at `retries = 0`. -/
def tot_loop (genO : Nat → List Str) (evalO : Nat → List Str → List EvalT)
    (maxRetries : Nat) : TotResult :=
  tot_go genO evalO maxRetries 0 (maxRetries + 1)

/-- `src/agents/writer.py` line 274: `max_retries: int = 2`. -/
def default_max_retries : Nat := 2

/-- `src/agents/writer.py` lines 332–338: branch futures whose `result()`
raised are caught and skipped; only successful results are appended. -/
def collect_branches {E : Type} (rs : List (Except E Str)) : List Str :=
  rs.filterMap (fun r => match r with | .ok a => some a | .error _ => none)

/-! ### Selection lemmas -/

/-- Step function of `selectBest`: keep the earlier element unless the later
one scores strictly higher. -/
def pickLater (b e : EvalT) : EvalT := if e.score > b.score then e else b

lemma insertDesc_head? (x : EvalT) (l : List EvalT) :
    (insertDesc x l).head? = some (match l.head? with
      | none => x
      | some y => if x.score ≥ y.score then x else y) := by
  cases l with
  | nil => rfl
  | cons y ys =>
    by_cases h : x.score ≥ y.score
    · simp [insertDesc, h]
    · simp [insertDesc, h]

lemma insertDesc_length (x : EvalT) (l : List EvalT) :
    (insertDesc x l).length = l.length + 1 := by
  induction l with
  | nil => rfl
  | cons y ys ih =>
    by_cases h : x.score ≥ y.score
    · simp [insertDesc, h]
    · simp [insertDesc, h, ih]

lemma mem_insertDesc {a x : EvalT} {l : List EvalT} :
    a ∈ insertDesc x l ↔ a = x ∨ a ∈ l := by
  induction l with
  | nil => simp [insertDesc]
  | cons y ys ih =>
    by_cases h : x.score ≥ y.score
    · simp [insertDesc, h]
    · simp only [insertDesc, h, if_false, List.mem_cons, ih]
      tauto

lemma mem_sort_desc {a : EvalT} {l : List EvalT} :
    a ∈ sort_desc l ↔ a ∈ l := by
  induction l with
  | nil => simp [sort_desc]
  | cons x xs ih =>
    simp [sort_desc, mem_insertDesc, ih]

lemma sort_desc_length (l : List EvalT) : (sort_desc l).length = l.length := by
  induction l with
  | nil => rfl
  | cons x xs ih => simp [sort_desc, insertDesc_length, ih]

lemma foldl_pickLater (xs : List EvalT) :
    ∀ x, xs.foldl pickLater x = (match selectBest xs with
      | none => x
      | some m => if m.score > x.score then m else x) := by
  induction xs with
  | nil => intro x; rfl
  | cons y ys ih =>
    intro x
    have hsel : selectBest (y :: ys) = some (ys.foldl pickLater y) := rfl
    rw [List.foldl_cons, ih (pickLater x y), hsel, ih y]
    cases hys : selectBest ys
    all_goals simp only [pickLater]
    all_goals split_ifs
    all_goals first | rfl | omega

lemma sort_desc_head?_eq_selectBest (l : List EvalT) :
    (sort_desc l).head? = selectBest l := by
  induction l with
  | nil => rfl
  | cons x xs ih =>
    show (insertDesc x (sort_desc xs)).head? = _
    rw [insertDesc_head?, ih]
    have : selectBest (x :: xs) = some (xs.foldl pickLater x) := rfl
    rw [this, foldl_pickLater]
    cases hxs : selectBest xs with
    | none => rfl
    | some m =>
      by_cases h : x.score ≥ m.score
      · have h' : ¬ m.score > x.score := by omega
        simp [h, h']
      · have h' : m.score > x.score := by omega
        simp [h, h']

lemma foldl_pickLater_mem (xs : List EvalT) :
    ∀ x, xs.foldl pickLater x = x ∨ xs.foldl pickLater x ∈ xs := by
  induction xs with
  | nil => intro x; left; rfl
  | cons y ys ih =>
    intro x
    rw [List.foldl_cons]
    rcases ih (pickLater x y) with h | h
    · rw [h]
      unfold pickLater
      split_ifs
      · right; exact List.mem_cons_self _ _
      · left; rfl
    · right; exact List.mem_cons_of_mem _ h

lemma foldl_pickLater_max (xs : List EvalT) :
    ∀ x, x.score ≤ (xs.foldl pickLater x).score ∧
      ∀ e ∈ xs, e.score ≤ (xs.foldl pickLater x).score := by
  induction xs with
  | nil => intro x; exact ⟨Int.le_refl _, by simp⟩
  | cons y ys ih =>
    intro x
    rw [List.foldl_cons]
    obtain ⟨h1, h2⟩ := ih (pickLater x y)
    have hx : x.score ≤ (pickLater x y).score := by
      unfold pickLater; split_ifs <;> omega
    have hy : y.score ≤ (pickLater x y).score := by
      unfold pickLater; split_ifs <;> omega
    refine ⟨Int.le_trans hx h1, ?_⟩
    intro e he
    rcases List.mem_cons.mp he with rfl | he'
    · exact Int.le_trans hy h1
    · exact h2 e he'

lemma selectBest_spec {l : List EvalT} {b : EvalT} (h : selectBest l = some b) :
    b ∈ l ∧ ∀ e ∈ l, e.score ≤ b.score := by
  cases l with
  | nil => simp [selectBest] at h
  | cons x xs =>
    have hb : b = xs.foldl pickLater x := by
      simpa [selectBest] using h.symm
    subst hb
    constructor
    · rcases foldl_pickLater_mem xs x with h' | h'
      · rw [h']; exact List.mem_cons_self _ _
      · exact List.mem_cons_of_mem _ h'
    · intro e he
      obtain ⟨h1, h2⟩ := foldl_pickLater_max xs x
      rcases List.mem_cons.mp he with rfl | he'
      · exact h1
      · exact h2 e he'

/-! ### Round-step and loop lemmas -/

lemma roundStep_scored (branches : List Str) (evals : List EvalT)
    {b0 : Str} {bs : List Str} (hb : branches = b0 :: bs)
    {best : EvalT} {rest : List EvalT} (hs : sort_desc evals = best :: rest)
    (hbp : best.passed = false) (retries maxR : Nat) :
    roundStep branches evals retries maxR =
      (if retries + 1 > maxR then .done best.content false
       else .next (aggregate (best :: rest))) := by
  subst hb
  cases evals with
  | nil => simp [sort_desc] at hs
  | cons e0 es =>
    simp only [roundStep, hs, hbp, Bool.false_eq_true, if_false]

lemma tot_go_rounds_le (genO : Nat → List Str)
    (evalO : Nat → List Str → List EvalT) (k : Nat) :
    ∀ (fuel retries : Nat),
      (tot_go genO evalO k retries fuel).rounds ≤ retries + fuel := by
  intro fuel
  induction fuel with
  | zero => intro retries; exact Nat.le_refl _
  | succ f ih =>
    intro retries
    unfold tot_go
    cases hstep : roundStep (genO retries) (evalO retries (genO retries)) retries k with
    | done c a =>
      dsimp only
      omega
    | next d =>
      dsimp only
      have := ih (retries + 1)
      omega

lemma tot_go_always_reject (genO : Nat → List Str)
    (evalO : Nat → List Str → List EvalT) (k : Nat)
    (hg : ∀ r, genO r ≠ [])
    (he : ∀ r, evalO r (genO r) ≠ [])
    (hp : ∀ r, ∀ e ∈ evalO r (genO r), e.passed = false) :
    ∀ fuel, ∀ retries, retries + fuel = k + 1 → 0 < fuel →
      ∃ best, (sort_desc (evalO k (genO k))).head? = some best ∧
        tot_go genO evalO k retries fuel = ⟨best.content, false, k + 1⟩ := by
  intro fuel
  induction fuel with
  | zero => intro retries _ h0; omega
  | succ f ih =>
    intro retries hsum _
    obtain ⟨b0, bs, hb⟩ : ∃ b0 bs, genO retries = b0 :: bs := by
      cases hgr : genO retries with
      | nil => exact absurd hgr (hg retries)
      | cons x xs => exact ⟨x, xs, rfl⟩
    obtain ⟨best, rest, hs⟩ :
        ∃ best rest, sort_desc (evalO retries (genO retries)) = best :: rest := by
      cases hsd : sort_desc (evalO retries (genO retries)) with
      | nil =>
        have := sort_desc_length (evalO retries (genO retries))
        rw [hsd] at this
        have hne := he retries
        cases hev : evalO retries (genO retries) with
        | nil => exact absurd hev hne
        | cons x xs => rw [hev] at this; simp at this
      | cons x xs => exact ⟨x, xs, rfl⟩
    have hbest_mem : best ∈ evalO retries (genO retries) := by
      have : best ∈ sort_desc (evalO retries (genO retries)) := by
        rw [hs]; exact List.mem_cons_self _ _
      exact mem_sort_desc.mp this
    have hbp : best.passed = false := hp retries best hbest_mem
    have hstep := roundStep_scored (genO retries) (evalO retries (genO retries))
      hb hs hbp retries k
    unfold tot_go
    by_cases hlast : retries + 1 > k
    · have hret : retries = k := by omega
      subst hret
      rw [hstep, if_pos hlast]
      dsimp only
      refine ⟨best, ?_, rfl⟩
      rw [hs]
      rfl
    · rw [hstep, if_neg hlast]
      dsimp only
      have hf : 0 < f := by omega
      exact ih (retries + 1) (by omega) hf

lemma tagLine_ne_nil (idx : Nat) (b : EvalT) : tagLine idx b ≠ [] := by
  have hhead : ("【分支 ".data : Str) ≠ [] := by decide
  unfold tagLine
  intro h
  rw [List.append_assoc, List.append_assoc, List.append_assoc,
    List.append_assoc] at h
  exact hhead (List.append_eq_nil.mp h).1

lemma joinNL_ne_nil {x : Str} {xs : List Str} (hx : x ≠ []) :
    joinNL (x :: xs) ≠ [] := by
  cases xs with
  | nil => simpa [joinNL] using hx
  | cons y ys =>
    simp only [joinNL]
    intro h
    rw [List.append_assoc] at h
    exact hx (List.append_eq_nil.mp h).1

lemma aggregate_cons_ne_nil (best : EvalT) (rest : List EvalT) :
    aggregate (best :: rest) ≠ [] := by
  unfold aggregate
  simp only [List.enum_cons, List.map_cons]
  exact joinNL_ne_nil (tagLine_ne_nil 0 best)

/-- C9: whenever a round fails and another round follows (the loop body
yields `.next d`), the directive `d` fed into the next round is non-empty;
moreover in the scored-branches case it is exactly the aggregation of every
evaluated branch's critique/directive tagged with its score, and in the
no-branches / no-evaluations cases it is the corresponding fixed retry
instruction, both non-empty. -/
theorem aggregated_directive_nonempty :
    (∀ (branches : List Str) (evals : List EvalT) (retries maxR : Nat) (d : Str),
      roundStep branches evals retries maxR = .next d → d ≠ []) ∧
    (∀ (branches : List Str) (evals : List EvalT) (retries maxR : Nat)
      (b0 : Str) (bs : List Str) (best : EvalT) (rest : List EvalT),
      branches = b0 :: bs → sort_desc evals = best :: rest →
      best.passed = false → retries + 1 ≤ maxR →
      roundStep branches evals retries maxR = .next (aggregate (best :: rest))) ∧
    msg_gen_fail ≠ [] ∧ msg_eval_fail ≠ [] := by
  refine ⟨?_, ?_, by decide, by decide⟩
  · intro branches evals retries maxR d hstep
    cases branches with
    | nil =>
      by_cases hr : retries + 1 > maxR
      · simp [roundStep, hr] at hstep
      · simp only [roundStep, hr, if_false] at hstep
        cases hstep
        decide
    | cons b0 bs =>
      cases evals with
      | nil =>
        by_cases hr : retries + 1 > maxR
        · simp [roundStep, hr] at hstep
        · simp only [roundStep, hr, if_false] at hstep
          cases hstep
          decide
      | cons e0 es =>
        cases hsd : sort_desc (e0 :: es) with
        | nil =>
          have := sort_desc_length (e0 :: es)
          rw [hsd] at this
          simp at this
        | cons best rest =>
          simp only [roundStep, hsd] at hstep
          by_cases hbp : best.passed = true
          · simp [hbp] at hstep
          · have hbp' : best.passed = false := by
              cases hv : best.passed with
              | false => rfl
              | true => exact absurd hv hbp
            by_cases hr : retries + 1 > maxR
            · simp [hbp', hr] at hstep
            · simp only [hbp', Bool.false_eq_true, if_false, hr] at hstep
              cases hstep
              exact aggregate_cons_ne_nil best rest
  · intro branches evals retries maxR b0 bs best rest hb hs hbp hr
    have := roundStep_scored branches evals hb hs hbp retries maxR
    rw [this, if_neg (by omega)]

/-- A concrete round body that fails (evaluation produced nothing) and is
followed by another round. -/
theorem aggregated_directive_nonempty_witness :
    roundStep [['a']] [] 0 2 = .next msg_eval_fail ∧ msg_eval_fail ≠ [] := by
  have h : roundStep [['a']] [] 0 2 = .next msg_eval_fail := rfl
  exact ⟨h, aggregated_directive_nonempty.1 [['a']] [] 0 2 msg_eval_fail h⟩

/-- C1: the branch-exploration loop of `Writer.write_section` performs at
most `k + 1` generation rounds for retry limit `k`, whatever the oracles
do; the source default is `max_retries = 2` (two extra rounds after the
first); and when generation always survives but the judge rejects every
branch in every round, exactly `k + 1` rounds run, the loop exits through
a forced-adoption break (`accepted = false`) and the returned text is that
of the best-scoring (though failing) branch of the last round. -/
theorem write_section_retry_bound :
    (∀ (genO : Nat → List Str) (evalO : Nat → List Str → List EvalT) (k : Nat),
      (tot_loop genO evalO k).rounds ≤ k + 1) ∧
    default_max_retries = 2 ∧
    (∀ (genO : Nat → List Str) (evalO : Nat → List Str → List EvalT) (k : Nat),
      (∀ r, genO r ≠ []) →
      (∀ r, evalO r (genO r) ≠ []) →
      (∀ r, ∀ e ∈ evalO r (genO r), e.passed = false) →
      (tot_loop genO evalO k).rounds = k + 1 ∧
      (tot_loop genO evalO k).accepted = false ∧
      ∃ best, (sort_desc (evalO k (genO k))).head? = some best ∧
        (tot_loop genO evalO k).content = best.content ∧
        ∀ e ∈ evalO k (genO k), e.score ≤ best.score) := by
  refine ⟨?_, rfl, ?_⟩
  · intro genO evalO k
    have := tot_go_rounds_le genO evalO k (k + 1) 0
    simpa [tot_loop] using this
  · intro genO evalO k hg he hp
    obtain ⟨best, hhead, heq⟩ :=
      tot_go_always_reject genO evalO k hg he hp (k + 1) 0 (by omega) (by omega)
    have hmax : ∀ e ∈ evalO k (genO k), e.score ≤ best.score := by
      have hsel : selectBest (evalO k (genO k)) = some best := by
        rw [← sort_desc_head?_eq_selectBest]; exact hhead
      exact (selectBest_spec hsel).2
    refine ⟨?_, ?_, best, hhead, ?_, hmax⟩ <;> simp [tot_loop, heq]

/-- Concrete oracles for the retry-bound witness: one surviving branch per
round, a judge that always rejects with score 10. -/
def wit_genO : Nat → List Str := fun _ => [['a']]

/-- The always-rejecting evaluation oracle of the retry-bound witness. -/
def wit_evalO : Nat → List Str → List EvalT :=
  fun _ bs => bs.map (fun c => ⟨false, 10, [], JVal.str [], c⟩)

/-- With `max_retries = 2` and an always-rejecting judge, exactly 3 rounds
run and the (failing) branch text is returned unaccepted. -/
theorem write_section_retry_bound_witness :
    (tot_loop wit_genO wit_evalO 2).rounds = 2 + 1 ∧
    (tot_loop wit_genO wit_evalO 2).accepted = false ∧
    (tot_loop wit_genO wit_evalO 2).content = ['a'] := by
  have h := write_section_retry_bound.2.2 wit_genO wit_evalO 2
    (fun r => by simp [wit_genO])
    (fun r => by simp [wit_genO, wit_evalO])
    (fun r e he => by
      simp only [wit_genO, wit_evalO, List.map_cons, List.map_nil,
        List.mem_singleton] at he
      rw [he])
  obtain ⟨h1, h2, best, hhead, hcontent, -⟩ := h
  refine ⟨h1, h2, ?_⟩
  have hbest : best = ⟨false, 10, [], JVal.str [], ['a']⟩ := by
    have : (sort_desc (wit_evalO 2 (wit_genO 2))).head? =
        some (⟨false, 10, [], JVal.str [], ['a']⟩ : EvalT) := rfl
    rw [this] at hhead
    exact (Option.some_inj.mp hhead).symm
  rw [hcontent, hbest]

/-- Two tied scored branches (score 50) with distinct contents, used to
exhibit the order dependence of the tie-break. -/
def tie_a : EvalT := ⟨false, 50, [], JVal.str [], ['A']⟩

/-- The sibling tied branch of `tie_a`. -/
def tie_b : EvalT := ⟨false, 50, [], JVal.str [], ['B']⟩

/-- C2 counterexample: the evaluated branches carry no branch id, and the
list handed to `sort` is in thread-completion order; the same two tied
branches presented in the two possible completion orders make the stable
descending sort select different branches, so the tie-break is by
completion order (a scheduler artefact), not by lowest branch id, and is
not reproducible across runs. -/
theorem selection_tie_by_completion_order_counterexample :
    List.Perm [tie_a, tie_b] [tie_b, tie_a] ∧
    tie_a.score = tie_b.score ∧
    tie_a.content ≠ tie_b.content ∧
    (sort_desc [tie_a, tie_b]).head? = some tie_a ∧
    (sort_desc [tie_b, tie_a]).head? = some tie_b := by
  refine ⟨List.Perm.swap tie_b tie_a [], rfl, ?_, rfl, rfl⟩
  intro h
  have : (['A'] : Str) = ['B'] := h
  simp at this

/-- C2 amended: in every round with at least one scored branch exactly one
branch is selected — the head of the stable descending sort — and it is a
branch of maximal score; among equal scores the branch that completed
evaluation earliest (earliest position in the arrival list) is taken, so
the selection is a deterministic function of the arrival list, but not of
the branch ids alone. -/
theorem selection_picks_first_maximum :
    (∀ l : List EvalT, (sort_desc l).head? = selectBest l) ∧
    (∀ (l : List EvalT) (e : EvalT), (sort_desc l).head? = some e →
      e ∈ l ∧ ∀ x ∈ l, x.score ≤ e.score) := by
  refine ⟨sort_desc_head?_eq_selectBest, ?_⟩
  intro l e hhead
  have hsel : selectBest l = some e := by
    rw [← sort_desc_head?_eq_selectBest]; exact hhead
  exact selectBest_spec hsel

/-- The selection theorem applied to a concrete two-element round. -/
theorem selection_picks_first_maximum_witness :
    (sort_desc [tie_a, tie_b]).head? = some tie_a ∧
    tie_a ∈ [tie_a, tie_b] ∧ ∀ x ∈ [tie_a, tie_b], x.score ≤ tie_a.score := by
  have h := selection_picks_first_maximum.2 [tie_a, tie_b] tie_a rfl
  exact ⟨rfl, h.1, h.2⟩

/-! ## The retry policy of `src/utils/llm_client.py`

`with_retry(max_retries=3, base_delay=2.0, max_delay=60.0)` wraps every
generation call (`_generate_openai` / `_generate_anthropic`).  The wrapped
call's outcome at each attempt enters as the oracle `f`; `time.sleep` is
recorded as the list of delays slept (delays are the integers 2, 4, 8, …
under the source defaults, so `Nat` suffices). -/

/-- The `while True` loop of `with_retry`, `src/utils/llm_client.py` lines
28–47: attempt `f attempt`; on success return; on failure increment
`retries`, re-raise once `retries > max_retries`, else sleep `delay` and
double it capped at `maxD`.  Fuel `maxR + 1` is enough because the loop
re-raises at `attempt = maxR` at the latest.  Returns (outcome, delays
slept in order, attempts made). -/
def retry_go {E A : Type} (f : Nat → Except E A) (maxR maxD : Nat) :
    Nat → Nat → List Nat → Nat → Except E A × List Nat × Nat
  | attempt, _, sleeps, 0 => (f attempt, sleeps.reverse, attempt + 1)
  | attempt, delay, sleeps, fuel + 1 =>
    match f attempt with
    | .ok a => (.ok a, sleeps.reverse, attempt + 1)
    | .error e =>
      if attempt + 1 > maxR then (.error e, sleeps.reverse, attempt + 1)
      else retry_go f maxR maxD (attempt + 1) (min (delay * 2) maxD) (delay :: sleeps) fuel

/-- `with_retry(max_retries, base_delay, max_delay)` applied to a call whose
attempt outcomes are `f`. -/
def with_retry_run {E A : Type} (f : Nat → Except E A) (maxR base maxD : Nat) :
    Except E A × List Nat × Nat :=
  retry_go f maxR maxD 0 base [] (maxR + 1)

lemma retry_go_attempts_le {E A : Type} (f : Nat → Except E A) (maxR maxD : Nat) :
    ∀ (fuel attempt delay : Nat) (sleeps : List Nat), attempt ≤ maxR →
      (retry_go f maxR maxD attempt delay sleeps fuel).2.2 ≤ maxR + 1 := by
  intro fuel
  induction fuel with
  | zero => intro attempt delay sleeps h; dsimp [retry_go]; omega
  | succ g ih =>
    intro attempt delay sleeps h
    unfold retry_go
    cases hf : f attempt with
    | ok a => dsimp only; omega
    | error e =>
      dsimp only
      by_cases hr : attempt + 1 > maxR
      · rw [if_pos hr]; dsimp only; omega
      · rw [if_neg hr]
        exact ih (attempt + 1) (min (delay * 2) maxD) (delay :: sleeps) (by omega)

/-- C7 counterexample: under the source defaults
(`max_retries=3, base_delay=2.0, max_delay=60.0`) an always-failing call
is attempted 4 times in total (one initial call plus three retries, with
sleeps 2 s, 4 s, 8 s in between) before the exception is re-raised — not
"up to 3 attempts in total" as claimed. -/
theorem retry_attempts_counterexample :
    with_retry_run (fun _ => (.error "boom" : Except String Unit)) 3 2 60 =
      (.error "boom", [2, 4, 8], 4) ∧ (4 : Nat) ≠ 3 := by
  exact ⟨rfl, by decide⟩

/-- C7 amended: every generation call is wrapped in bounded
exponential-backoff retry: at most `max_retries + 1` attempts in total
(4 under the source defaults: one initial call plus `max_retries = 3`
retries), sleeping the base delay 2 s before the first retry and doubling
it capped at 60 s (2 s, 4 s, 8 s); once attempts are exhausted the last
exception is re-raised; in `Writer.write_section` a branch whose call
raised is dropped from the round, not propagated, so exhaustion is a
branch-level failure, not a crash of the whole round. -/
theorem retry_policy_bounded :
    (∀ {E A : Type} (f : Nat → Except E A) (maxR base maxD : Nat),
      (with_retry_run f maxR base maxD).2.2 ≤ maxR + 1) ∧
    (∀ {E A : Type} (f : Nat → Except E A),
      (∀ i, ∃ e, f i = .error e) →
      with_retry_run f 3 2 60 = (f 3, [2, 4, 8], 4)) ∧
    (∀ {E : Type} (e : E) (rest : List (Except E Str)),
      collect_branches (.error e :: rest) = collect_branches rest) ∧
    (∀ {E : Type} (a : Str) (rest : List (Except E Str)),
      collect_branches (.ok a :: rest) = a :: collect_branches rest) := by
  refine ⟨?_, ?_, ?_, ?_⟩
  · intro E A f maxR base maxD
    exact retry_go_attempts_le f maxR maxD (maxR + 1) 0 base [] (by omega)
  · intro E A f hf
    obtain ⟨e0, h0⟩ := hf 0
    obtain ⟨e1, h1⟩ := hf 1
    obtain ⟨e2, h2⟩ := hf 2
    obtain ⟨e3, h3⟩ := hf 3
    unfold with_retry_run retry_go
    rw [h0]
    dsimp only
    rw [if_neg (by omega)]
    unfold retry_go
    rw [h1]
    dsimp only
    rw [if_neg (by omega)]
    unfold retry_go
    rw [h2]
    dsimp only
    rw [if_neg (by omega)]
    unfold retry_go
    rw [h3]
    dsimp only
    rw [if_pos (by omega)]
    norm_num
  · intro E e rest; rfl
  · intro E a rest; rfl

/-- The amended retry theorem applied to a concrete always-failing call. -/
theorem retry_policy_bounded_witness :
    with_retry_run (fun _ => (.error "down" : Except String Str)) 3 2 60 =
      (.error "down", [2, 4, 8], 4) := by
  have h := retry_policy_bounded.2.1
    (fun _ => (.error "down" : Except String Str))
    (fun i => ⟨"down", rfl⟩)
  simpa using h

/-! ## The judge: `src/agents/drama_evaluator.py`

`json.loads` is embedded as a recursive-descent parser over `List Char`
for the JSON grammar with numbers restricted to integer literals (the only
shape the judge schema's scores take here; a fractional or exponent
literal makes the embedded parser fail where CPython would succeed, which
no checked property exercises).  The two regex extractions of
`_parse_json_response` are embedded by their first-match semantics. -/

/-- JSON whitespace accepted by `json.loads`: space, tab, newline, return. -/
def isJsonWs (c : Char) : Bool := decide (c.toNat ∈ [32, 9, 10, 13])

/-- Skip JSON whitespace. -/
def skipWs (s : Str) : Str := s.dropWhile isJsonWs

/-- One-character JSON string escapes. -/
def escChar (e : Char) : Option Char :=
  if e = '"' then some '"'
  else if e = '\\' then some '\\'
  else if e = '/' then some '/'
  else if e = 'b' then some (Char.ofNat 8)
  else if e = 'f' then some (Char.ofNat 12)
  else if e = 'n' then some '\n'
  else if e = 'r' then some '\r'
  else if e = 't' then some '\t'
  else none

/-- Hexadecimal digit value, for `\uXXXX` escapes. -/
def hexVal (c : Char) : Option Nat :=
  if c.isDigit then some (c.toNat - 48)
  else if 'a' ≤ c ∧ c ≤ 'f' then some (c.toNat - 87)
  else if 'A' ≤ c ∧ c ≤ 'F' then some (c.toNat - 55)
  else none

/-- Parse the remainder of a JSON string (after the opening quote):
returns the decoded characters and the input after the closing quote.
Unescaped control characters are rejected, as `json.loads` does. -/
def parseStrRest : Str → Option (Str × Str)
  | [] => none
  | c :: rest =>
    if c = '"' then some ([], rest)
    else if c = '\\' then
      match rest with
      | [] => none
      | e :: rest2 =>
        if e = 'u' then
          match rest2 with
          | h1 :: h2 :: h3 :: h4 :: rest3 =>
            match hexVal h1, hexVal h2, hexVal h3, hexVal h4 with
            | some a, some b, some c2, some d =>
              (parseStrRest rest3).map
                (fun p => (Char.ofNat (((a * 16 + b) * 16 + c2) * 16 + d) :: p.1, p.2))
            | _, _, _, _ => none
          | _ => none
        else
          match escChar e with
          | some ec => (parseStrRest rest2).map (fun p => (ec :: p.1, p.2))
          | none => none
    else if c.toNat < 32 then none
    else (parseStrRest rest).map (fun p => (c :: p.1, p.2))

/-- Decimal digits to a `Nat`. -/
def digitsToNat (ds : Str) : Nat := ds.foldl (fun a c => a * 10 + (c.toNat - 48)) 0

/-- Parse a JSON integer literal (optional minus, digits, no leading zero,
rejecting a following `.`/`e`/`E` — the fractional subset is outside the
embedding). -/
def parseNum (s : Str) : Option (Int × Str) :=
  let neg : Bool := match s with
    | c :: _ => c = '-'
    | [] => false
  let s1 : Str := if neg then s.drop 1 else s
  let ds := s1.takeWhile Char.isDigit
  let rest := s1.dropWhile Char.isDigit
  if ds = [] then none
  else if ds.length > 1 ∧ ds.head? = some '0' then none
  else
    let v : Int := if neg then -(digitsToNat ds : Int) else (digitsToNat ds : Int)
    match rest with
    | c :: _ => if c = '.' ∨ c = 'e' ∨ c = 'E' then none else some (v, rest)
    | [] => some (v, rest)

/-- The three keyword tails. -/
def lit_rue : Str := "rue".data

/-- Tail of `false`. -/
def lit_alse : Str := "alse".data

/-- Tail of `null`. -/
def lit_ull : Str := "ull".data

/-- Match a fixed literal tail and produce the value `v`. -/
def expectLit (lit : Str) (s : Str) (v : JVal) : Option (JVal × Str) :=
  if s.take lit.length = lit then some (v, s.drop lit.length) else none

/-- The five positions of the recursive-descent JSON parser (the object
and array member modes carry the members accumulated so far). -/
inductive PMode where
  | val : PMode
  | objStart : PMode
  | objMems : List (Str × JVal) → PMode
  | arrStart : PMode
  | arrElems : List JVal → PMode

/-- One fuel-indexed step family of the recursive-descent JSON parser:
`.val` parses one JSON value, `.objStart` an object body after `\x7b`,
`.objMems acc` further members, `.arrStart` an array body after `[`,
`.arrElems acc` further elements.  The recursion is structural on the fuel
(chosen ample by `json_loads`). -/
def parseStep : Nat → PMode → Str → Option (JVal × Str)
  | 0, _, _ => none
  | fuel + 1, .val, s =>
    (match skipWs s with
     | [] => none
     | c :: rest =>
       if c = '"' then (parseStrRest rest).map (fun p => (JVal.str p.1, p.2))
       else if c = lb then parseStep fuel .objStart rest
       else if c = '[' then parseStep fuel .arrStart rest
       else if c = 't' then expectLit lit_rue rest (JVal.bool true)
       else if c = 'f' then expectLit lit_alse rest (JVal.bool false)
       else if c = 'n' then expectLit lit_ull rest JVal.null
       else if c = '-' ∨ c.isDigit then
         (parseNum (c :: rest)).map (fun p => (JVal.num p.1, p.2))
       else none)
  | fuel + 1, .objStart, s =>
    (match skipWs s with
     | [] => none
     | c :: rest =>
       if c = rb then some (JVal.obj [], rest)
       else parseStep fuel (.objMems []) (c :: rest))
  | fuel + 1, .objMems acc, s =>
    (match skipWs s with
     | [] => none
     | c :: rest =>
       if c = '"' then
         match parseStrRest rest with
         | none => none
         | some (k, r2) =>
           match skipWs r2 with
           | [] => none
           | c2 :: r3 =>
             if c2 = ':' then
               match parseStep fuel .val r3 with
               | none => none
               | some (v, r4) =>
                 match skipWs r4 with
                 | [] => none
                 | c3 :: r5 =>
                   if c3 = ',' then parseStep fuel (.objMems (acc ++ [(k, v)])) r5
                   else if c3 = rb then some (JVal.obj (acc ++ [(k, v)]), r5)
                   else none
             else none
       else none)
  | fuel + 1, .arrStart, s =>
    (match skipWs s with
     | [] => none
     | c :: rest =>
       if c = ']' then some (JVal.arr [], rest)
       else parseStep fuel (.arrElems []) (c :: rest))
  | fuel + 1, .arrElems acc, s =>
    (match parseStep fuel .val s with
     | none => none
     | some (v, r) =>
       match skipWs r with
       | [] => none
       | c :: rest =>
         if c = ',' then parseStep fuel (.arrElems (acc ++ [v])) rest
         else if c = ']' then some (JVal.arr (acc ++ [v]), rest)
         else none)

/-- Parse one JSON value. -/
def parseVal (fuel : Nat) (s : Str) : Option (JVal × Str) :=
  parseStep fuel .val s

/-- `json.loads`: parse a whole reply; fail unless only whitespace
remains.  The fuel is ample: every three recursion levels consume at least
one input character. -/
def json_loads (s : Str) : Option JVal :=
  match parseVal (3 * s.length + 3) s with
  | some (v, rest) => if skipWs rest = [] then some v else none
  | none => none

/-- Index of the first occurrence of `pat` as a contiguous sublist. -/
def findSub (pat : Str) : Str → Option Nat
  | [] => if pat = [] then some 0 else none
  | c :: rest =>
    if pat.isPrefixOf (c :: rest) then some 0
    else (findSub pat rest).map (· + 1)

/-- Index of the last occurrence of the character `c`. -/
def findLast (c : Char) (s : Str) : Option Nat :=
  (findSub [c] s.reverse).map (fun k => s.length - 1 - k)

/-- Python `pat in s` for strings. -/
def isSubstr (pat s : Str) : Bool := (findSub pat s).isSome

/-- The literal opening fence of the step-2 regex. -/
def fence_open : Str := "```json".data

/-- The literal closing fence. -/
def fence_close : Str := "```".data

/-- Step 2 of `_parse_json_response`, `src/agents/drama_evaluator.py` line
116: `re.search(r'```json\s*(.*?)\s*```', response, re.DOTALL)` — the
interior between the first ```` ```json ```` and the earliest following
```` ``` ````, trimmed of surrounding whitespace (the lazy group with the
greedy `\s*` on both sides). -/
def extract_fenced (s : Str) : Option Str :=
  match findSub fence_open s with
  | none => none
  | some i =>
    match findSub fence_close (s.drop (i + fence_open.length)) with
    | none => none
    | some j => some (pyStrip ((s.drop (i + fence_open.length)).take j))

/-- Step 3, line 124: `re.search(r'\x7b.*\x7d', response, re.DOTALL)` — from
the first `\x7b` to the last `\x7d` after it (greedy `.*`; the match exists
iff some `\x7d` follows the first `\x7b`). -/
def extract_braces (s : Str) : Option Str :=
  match findSub [lb] s with
  | none => none
  | some i =>
    match findLast rb (s.drop i) with
    | none => none
    | some j => some ((s.drop i).take (j + 1))

/-- The brace fallback of `_parse_json_response` (shared by the two failure
paths of step 2); an unparsable extraction falls through to the final
`return \x7b\x7d`. -/
def parse_braces (response : Str) : JVal :=
  match extract_braces response with
  | none => JVal.obj []
  | some t =>
    match json_loads t with
    | some v => v
    | none => JVal.obj []

/-- `DramaEvaluator._parse_json_response`, lines 109–130: the three-step
fallback ladder, returning the Python `\x7b\x7d` when everything fails. -/
def parse_json_response (response : Str) : JVal :=
  match json_loads response with
  | some v => v
  | none =>
    match extract_fenced response with
    | some i =>
      match json_loads i with
      | some v => v
      | none => parse_braces response
    | none => parse_braces response

/-- Python dict lookup for a parsed JSON object (later duplicate keys win,
as in `json.loads`). -/
def dictGet (k : Str) : List (Str × JVal) → Option JVal
  | [] => none
  | (k', v) :: rest =>
    match dictGet k rest with
    | some v' => some v'
    | none => if k' = k then some v else none

/-- Python truthiness of a parsed JSON value. -/
def pyTruthy : JVal → Bool
  | .null => false
  | .bool b => b
  | .num n => decide (n ≠ 0)
  | .str s => !s.isEmpty
  | .arr xs => !xs.isEmpty
  | .obj kvs => !kvs.isEmpty

/-- The error text standing for a raised `TypeError`. -/
def err_type : Str := "TypeError: argument of type is not iterable".data

/-- The error text standing for a raised `AttributeError` (`.get` on a
non-dict). -/
def err_attr : Str := "AttributeError: object has no attribute get".data

/-- The error text standing for a raised `ValueError`/`TypeError` inside
`float(...)`. -/
def err_float : Str := "ValueError: could not convert to float".data

/-- Python `k in eval_data` with a string `k`: key lookup on dicts,
substring test on strings, membership on lists, `TypeError` otherwise. -/
def pyContains (k : Str) : JVal → Except Str Bool
  | .obj kvs => .ok (dictGet k kvs).isSome
  | .str s => .ok (isSubstr k s)
  | .arr xs => .ok (xs.any (fun v => match v with
      | .str s => decide (s = k)
      | _ => false))
  | _ => .error err_type

/-- Python `float(v)` on a parsed JSON value (strings restricted to the
integer-literal subset of the embedding). -/
def pyFloat : JVal → Except Str Int
  | .num n => .ok n
  | .bool b => .ok (if b then 1 else 0)
  | .str s =>
    (match parseNum (pyStrip s) with
     | some (n, rest) => if rest = [] then .ok n else .error err_float
     | none => .error err_float)
  | _ => .error err_float

/-- One rubric criterion (`src/agents/drama_evaluator.py` lines 88–91). -/
structure Criterion where
  name : Str
  weight : Int
  description : Str
  levels : List (Str × Str)

/-- The rubric file content (`examples/drama_rubric.yaml` once parsed):
`target_pass_score`, `criteria`, `judge_instructions`; absent fields are
`none` to mirror `dict.get` defaulting. -/
structure Rubric where
  target_pass_score : Option Int
  criteria : List Criterion
  judge_instructions : Str

/-- `DramaEvaluator._load_rubric`, lines 29–33: a missing rubric file
raises `FileNotFoundError` immediately; otherwise the parsed file is
returned.  The filesystem enters as `file : Option Rubric` (`none` when
`os.path.exists` is false). -/
def load_rubric (file : Option Rubric) (path : Str) : Except Str Rubric :=
  match file with
  | none => .error ("找不到指定的裁判量规文件: ".data ++ path)
  | some r => .ok r

/-- The constructed judge: its rubric and the threshold
`self.target_score = self.rubric.get('target_pass_score', 90)`. -/
structure Evaluator where
  rubric : Rubric
  target_score : Int

/-- `DramaEvaluator.__init__`, lines 24–27: construction fails when the
rubric file is absent, else stores the rubric and its threshold
(default 90). -/
def drama_evaluator_init (file : Option Rubric) (path : Str) :
    Except Str Evaluator :=
  match load_rubric file path with
  | .error e => .error e
  | .ok r => .ok ⟨r, r.target_pass_score.getD 90⟩

/-- One writing mode (`src/agents/writer.py` lines 51–72). -/
structure ModeSpec where
  name : Str
  system_prompt : Str
  summary_prompt : Str

/-- The parsed `config/modes.yaml` (absent fields are `none` to mirror
`dict.get` defaulting). -/
structure ModesFile where
  modes : Option (List (Str × ModeSpec))
  default_mode : Option Str

/-- The state of a loaded `ModeConfig`. -/
structure ModeConfigState where
  modes : List (Str × ModeSpec)
  default_mode : Str

/-- `ModeConfig._set_default_modes`, `src/agents/writer.py` lines 49–72:
the four built-in modes. -/
def default_modes : List (Str × ModeSpec) :=
  [("novel".data,
    ⟨"小说/故事".data,
     "你是一位专业的小说作家。请根据提供的上下文创作高质量的小说内容。".data,
     "请为以下内容生成简洁摘要，包含主要事件和人物行动。".data⟩),
   ("report".data,
    ⟨"研究报告".data,
     "你是一位专业的研究分析师。请撰写逻辑清晰、数据准确的报告内容。".data,
     "请为以下内容生成简洁摘要，包含核心观点和关键结论。".data⟩),
   ("article".data,
    ⟨"文章/博客".data,
     "你是一位资深内容创作者。请撰写引人入胜、有价值的文章内容。".data,
     "请为以下内容生成简洁摘要，包含核心论点和主要观点。".data⟩),
   ("document".data,
    ⟨"技术文档".data,
     "你是一位专业的技术文档工程师。请撰写清晰准确的技术文档。".data,
     "请为以下内容生成简洁摘要，包含涵盖的功能和关键步骤。".data⟩)]

/-- `ModeConfig.__init__` + `_load_modes`, `src/agents/writer.py` lines
31–47: an absent `config/modes.yaml` falls back to the built-in defaults
(`default_mode` keeps its initial `"novel"`); a present file supplies
`data.get('modes', \x7b\x7d)` and `data.get('default_mode', 'novel')`. -/
def load_modes (file : Option ModesFile) : ModeConfigState :=
  match file with
  | none => ⟨default_modes, "novel".data⟩
  | some f => ⟨f.modes.getD [], f.default_mode.getD ("novel".data)⟩

/-- `src/agents/drama_evaluator.py` line 55 (critique of the fallback). -/
def msg_unparseable : Str := "无法解析裁判返回的评估数据，强制打回重写。".data

/-- `src/agents/drama_evaluator.py` line 55 (directive of the fallback). -/
def msg_format_fix : Str := "请注意遵循基本的小说写作规范，格式不要出问题。".data

/-- The feedback-building part of `evaluate_section`, lines 60–78; returns
the joined feedback text and the raw `revision_plan` value.  Fails (as the
source raises) when a truthy `dimension_scores` is not a dict. -/
def build_feedback (total_score : Int) (kvs : List (Str × JVal)) :
    Except Str (Str × JVal) :=
  let line1 := "【裁判总分】: ".data ++ (toString total_score).data ++ " / 100".data
  let dim_scores := (dictGet ("dimension_scores".data) kvs).getD (JVal.obj [])
  match (if pyTruthy dim_scores then
      (match dim_scores with
       | .obj ds => .ok
           ["- 视觉转化率: ".data ++ pyStrOf ((dictGet ("visual".data) ds).getD (JVal.num 0)),
            "- 情绪爽感: ".data ++ pyStrOf ((dictGet ("emotion".data) ds).getD (JVal.num 0)),
            "- 钩子密度: ".data ++ pyStrOf ((dictGet ("hook".data) ds).getD (JVal.num 0))]
       | _ => .error err_attr)
    else (.ok [] : Except Str (List Str))) with
  | .error e => .error e
  | .ok dimLines =>
    let critique := (dictGet ("critique".data) kvs).getD (JVal.str [])
    let critLines : List Str :=
      if pyTruthy critique then ["\n【裁判毒舌】: ".data ++ pyStrOf critique] else []
    let directive := (dictGet ("revision_plan".data) kvs).getD (JVal.str [])
    let dirLines : List Str :=
      if pyTruthy directive then ["【重写建议】: ".data ++ pyStrOf directive] else []
    .ok (joinNL (line1 :: (dimLines ++ critLines ++ dirLines)), directive)

/-- `DramaEvaluator.evaluate_section`, lines 35–83: parse the model reply
through the ladder, fall back to `(False, 0.0, …unparseable…, …format…)`
when the result is falsy or lacks a `score` key, else extract the score,
build the feedback and decide `passed = total_score >= self.target_score`
inside the judge.  The model reply enters as the input `response`. -/
def evaluate_section (ev : Evaluator) (response : Str) :
    Except Str (Bool × Int × Str × JVal) :=
  let eval_data := parse_json_response response
  if pyTruthy eval_data = false then
    .ok (false, 0, msg_unparseable, JVal.str msg_format_fix)
  else
    match pyContains ("score".data) eval_data with
    | .error e => .error e
    | .ok hasScore =>
      if hasScore = false then
        .ok (false, 0, msg_unparseable, JVal.str msg_format_fix)
      else
        match eval_data with
        | .obj kvs =>
          (match pyFloat ((dictGet ("score".data) kvs).getD (JVal.num 0)) with
           | .error e => .error e
           | .ok total_score =>
             match build_feedback total_score kvs with
             | .error e => .error e
             | .ok (feedback, directive) =>
               .ok (decide (total_score ≥ ev.target_score), total_score,
                    feedback, directive))
        | _ => .error err_attr

/-- C8: an absent `config/modes.yaml` degrades gracefully to the built-in
default modes, while an absent rubric file makes the judge's construction
fail immediately with `FileNotFoundError` naming the path (and a present
rubric file constructs the judge with its configured threshold). -/
theorem config_missing_modes_graceful_missing_rubric_fatal :
    load_modes none = ⟨default_modes, "novel".data⟩ ∧
    (∀ path : Str, drama_evaluator_init none path =
      .error ("找不到指定的裁判量规文件: ".data ++ path)) ∧
    (∀ (r : Rubric) (path : Str), drama_evaluator_init (some r) path =
      .ok ⟨r, r.target_pass_score.getD 90⟩) :=
  ⟨rfl, fun _ => rfl, fun _ _ => rfl⟩

/-- A rubric without a `target_pass_score` entry, for the threshold
default. -/
def ex_rub_default : Rubric := ⟨none, [], []⟩

/-- A rubric configuring threshold 80. -/
def ex_rub_80 : Rubric := ⟨some 80, [], []⟩

/-- A judge reply scoring 85. -/
def ex_resp_85 : Str := "\x7b\"score\": 85\x7d".data

/-- C6 counterexample: `passed` is computed inside
`DramaEvaluator.evaluate_section` (line 81, `total_score >=
self.target_score`), not by its caller: the same reply and the same caller
get `passed = false` from a judge constructed with the default threshold
90 and `passed = true` from a judge constructed with threshold 80 — the
flag is already present in the judge's own return value — and the caller
(`Writer.write_section` line 383) accepts whatever flag the judge
returned, accepting here a branch whose score 10 is far below any
threshold because its tuple says `passed`. -/
theorem passed_computed_inside_judge_counterexample :
    (drama_evaluator_init (some ex_rub_default) []).toOption.map
      (fun ev => ev.target_score) = some 90 ∧
    ((drama_evaluator_init (some ex_rub_default) []).toOption.bind
      (fun ev => (evaluate_section ev ex_resp_85).toOption.map
        (fun t => t.1))) = some false ∧
    ((drama_evaluator_init (some ex_rub_80) []).toOption.bind
      (fun ev => (evaluate_section ev ex_resp_85).toOption.map
        (fun t => t.1))) = some true ∧
    roundStep [['c']] [⟨true, 10, [], JVal.str [], ['c']⟩] 0 2 =
      .done ['c'] true := by
  refine ⟨rfl, rfl, rfl, rfl⟩

/-- C6 amended: the `passed` flag is computed inside the judge's
`evaluate_section` as `score >= target_score`, against the threshold the
judge instance was constructed with (`target_pass_score` of its rubric,
default 90 when absent); the caller consumes the flag, so serving a
different threshold requires constructing a judge with a different
rubric. -/
theorem passed_threshold_inside_judge :
    (∀ (r : Rubric) (path : Str), drama_evaluator_init (some r) path =
      .ok ⟨r, r.target_pass_score.getD 90⟩) ∧
    (∀ (ev : Evaluator) (response : Str) (kvs : List (Str × JVal)) (n : Int),
      parse_json_response response = JVal.obj kvs →
      dictGet ("score".data) kvs = some (JVal.num n) →
      dictGet ("dimension_scores".data) kvs = none →
      ∃ fb dir, evaluate_section ev response =
        .ok (decide (n ≥ ev.target_score), n, fb, dir)) := by
  refine ⟨fun _ _ => rfl, ?_⟩
  intro ev response kvs n hp hs hd
  have hkvs : kvs.isEmpty = false := by
    cases kvs with
    | nil => simp [dictGet] at hs
    | cons a l => rfl
  have htr : pyTruthy (JVal.obj kvs) = true := by
    simp [pyTruthy, hkvs]
  have hcont : pyContains ("score".data) (JVal.obj kvs) = .ok true := by
    simp [pyContains, hs]
  have hdim : pyTruthy (JVal.obj []) = false := rfl
  unfold evaluate_section build_feedback
  rw [hp]
  simp only [htr, hcont, hs, hd, Bool.true_eq_false, Bool.false_eq_true,
    if_false, Option.getD_some, Option.getD_none, pyFloat, hdim]
  exact ⟨_, _, rfl⟩

/-- The threshold theorem applied to a concrete judge (threshold 80) and a
concrete score-85 reply: `passed` comes out true from the judge itself. -/
theorem passed_threshold_inside_judge_witness :
    parse_json_response ex_resp_85 = JVal.obj [("score".data, JVal.num 85)] ∧
    ∃ fb dir, evaluate_section ⟨ex_rub_80, 80⟩ ex_resp_85 =
      .ok (true, 85, fb, dir) := by
  refine ⟨rfl, ?_⟩
  have h := passed_threshold_inside_judge.2 ⟨ex_rub_80, 80⟩ ex_resp_85
    [("score".data, JVal.num 85)] 85 rfl rfl rfl
  simpa using h

/-! ### Lemmas for the parsing-ladder claim -/

lemma skipWs_cons_of_not_ws {c : Char} (h : isJsonWs c = false) (x : Str) :
    skipWs (c :: x) = c :: x := by
  rw [skipWs, List.dropWhile_cons, h]
  simp

lemma parseStep_val_bq (fuel : Nat) (x : Str) :
    parseStep fuel .val (bq :: x) = none := by
  cases fuel with
  | zero => rfl
  | succ f =>
    have hws : skipWs (bq :: x) = bq :: x :=
      skipWs_cons_of_not_ws (by decide) x
    simp only [parseStep, hws]
    rw [if_neg (by decide), if_neg (by decide), if_neg (by decide),
      if_neg (by decide), if_neg (by decide), if_neg (by decide),
      if_neg (by decide)]

lemma json_loads_bq (x : Str) : json_loads (bq :: x) = none := by
  unfold json_loads parseVal
  rw [parseStep_val_bq]

lemma isPrefixOf_append_self (l x : Str) : l.isPrefixOf (l ++ x) = true := by
  induction l with
  | nil => simp [List.isPrefixOf]
  | cons a as ih => simp [List.isPrefixOf, ih]

lemma findSub_prefix (p y : Str) (hp : p ≠ []) : findSub p (p ++ y) = some 0 := by
  cases p with
  | nil => exact absurd rfl hp
  | cons c cs =>
    have hpre := isPrefixOf_append_self (c :: cs) y
    rw [List.cons_append, findSub, if_pos (by rw [← List.cons_append]; exact hpre)]

lemma findSub_skip (h0 : Char) (p : Str) :
    ∀ (x y : Str), (∀ c ∈ x, c ≠ h0) →
      findSub (h0 :: p) (x ++ y) = (findSub (h0 :: p) y).map (· + x.length) := by
  intro x
  induction x with
  | nil =>
    intro y _
    cases hf : findSub (h0 :: p) y <;> simp [hf]
  | cons c cs ih =>
    intro y hx
    have hc : c ≠ h0 := hx c (List.mem_cons_self _ _)
    have hbeq : (h0 == c) = false := beq_eq_false_iff_ne.mpr (Ne.symm hc)
    have hpre : (h0 :: p).isPrefixOf (c :: (cs ++ y)) = false := by
      simp [List.isPrefixOf, hbeq]
    rw [List.cons_append, findSub, if_neg (by rw [hpre]; simp)]
    rw [ih y (fun d hd => hx d (List.mem_cons_of_mem _ hd))]
    cases hf : findSub (h0 :: p) y with
    | none => simp
    | some k => simp; omega

lemma findSub_none (h0 : Char) (p : Str) :
    ∀ x : Str, (∀ c ∈ x, c ≠ h0) → findSub (h0 :: p) x = none := by
  intro x
  induction x with
  | nil => simp [findSub]
  | cons c cs ih =>
    intro hx
    have hc : c ≠ h0 := hx c (List.mem_cons_self _ _)
    have hbeq : (h0 == c) = false := beq_eq_false_iff_ne.mpr (Ne.symm hc)
    have hpre : (h0 :: p).isPrefixOf (c :: cs) = false := by
      simp [List.isPrefixOf, hbeq]
    rw [findSub, if_neg (by rw [hpre]; simp)]
    rw [ih (fun d hd => hx d (List.mem_cons_of_mem _ hd))]
    rfl

lemma head?_eq_cons {s : Str} {a : Char} (h : s.head? = some a) :
    ∃ t, s = a :: t := by
  cases s with
  | nil => simp at h
  | cons b l =>
    have : b = a := by simpa using h
    exact ⟨l, by rw [this]⟩

lemma reverse_eq_cons_of_getLast? {s : Str} {a : Char}
    (h : s.getLast? = some a) : ∃ u, s.reverse = a :: u := by
  have h1 : s.reverse.head? = some a := by
    rw [List.head?_reverse]; exact h
  exact head?_eq_cons h1

lemma pyStrip_wrap (s : Str) (hhead : s.head? = some lb)
    (hlast : s.getLast? = some rb) :
    pyStrip ('\n' :: (s ++ ['\n'])) = s := by
  obtain ⟨t, rfl⟩ := head?_eq_cons hhead
  obtain ⟨u, hu⟩ := reverse_eq_cons_of_getLast? hlast
  unfold pyStrip
  rw [List.dropWhile_cons, if_pos (by decide)]
  rw [List.cons_append, List.dropWhile_cons, if_neg (by decide)]
  rw [← List.cons_append, List.reverse_append, List.reverse_singleton,
    List.singleton_append]
  rw [List.dropWhile_cons, if_pos (by decide)]
  rw [hu, List.dropWhile_cons, if_neg (by decide)]
  rw [← hu, List.reverse_reverse]

lemma extract_fenced_wrap (s : Str) (hhead : s.head? = some lb)
    (hlast : s.getLast? = some rb) (hbq : ∀ c ∈ s, c ≠ bq) :
    extract_fenced ("```json\n".data ++ s ++ "\n```".data) = some s := by
  have hpre : ("```json\n".data : Str) = fence_open ++ ['\n'] := rfl
  have hsuf : ("\n```".data : Str) = ['\n'] ++ "```".data := rfl
  have hshape : "```json\n".data ++ s ++ "\n```".data =
      fence_open ++ (('\n' :: (s ++ ['\n'])) ++ "```".data) := by
    rw [hpre, hsuf]
    simp [List.append_assoc, List.cons_append, List.singleton_append]
  rw [hshape]
  have hfind1 : findSub fence_open
      (fence_open ++ (('\n' :: (s ++ ['\n'])) ++ "```".data)) = some 0 :=
    findSub_prefix fence_open _ (by decide)
  have hnobq : ∀ c ∈ '\n' :: (s ++ ['\n']), c ≠ bq := by
    intro c hc
    rcases List.mem_cons.mp hc with rfl | hc'
    · decide
    · rcases List.mem_append.mp hc' with hcs | hc1
      · exact hbq c hcs
      · have hcn : c = '\n' := by simpa using hc1
        subst hcn; decide
  have hfence3 : fence_close = bq :: "``".data := rfl
  have hfind2 : findSub fence_close
      (('\n' :: (s ++ ['\n'])) ++ "```".data) = some (s.length + 2) := by
    rw [hfence3, findSub_skip bq ("``".data) _ _ hnobq]
    have h0 : findSub (bq :: "``".data) ("```".data) = some 0 := rfl
    rw [h0]
    simp
  unfold extract_fenced
  rw [hfind1]
  dsimp only
  rw [Nat.zero_add, List.drop_left, hfind2]
  dsimp only
  have hlen : s.length + 2 = ('\n' :: (s ++ ['\n'])).length := by simp
  rw [hlen, List.take_left, pyStrip_wrap s hhead hlast]

lemma extract_braces_wrap (pre s post : Str) (hhead : s.head? = some lb)
    (hlast : s.getLast? = some rb) (hpre : ∀ c ∈ pre, c ≠ lb)
    (hpost : ∀ c ∈ post, c ≠ rb) :
    extract_braces (pre ++ s ++ post) = some s := by
  obtain ⟨t, hts⟩ := head?_eq_cons hhead
  obtain ⟨u, hu⟩ := reverse_eq_cons_of_getLast? hlast
  have hslen : 1 ≤ s.length := by rw [hts]; simp
  have hfind1 : findSub [lb] (pre ++ s ++ post) = some pre.length := by
    rw [List.append_assoc, findSub_skip lb [] pre (s ++ post) hpre]
    have h0 : findSub [lb] (s ++ post) = some 0 := by
      rw [hts, List.cons_append, findSub,
        if_pos (by simp [List.isPrefixOf])]
    rw [h0]
    simp
  have hdrop : (pre ++ s ++ post).drop pre.length = s ++ post := by
    rw [List.append_assoc, List.drop_left]
  have hfind2 : findLast rb (s ++ post) = some (s.length - 1) := by
    unfold findLast
    rw [List.reverse_append, findSub_skip rb [] post.reverse s.reverse
      (by intro c hc; exact hpost c (List.mem_reverse.mp hc))]
    have h0 : findSub [rb] s.reverse = some 0 := by
      rw [hu, findSub, if_pos (by simp [List.isPrefixOf])]
    rw [h0]
    simp
    omega
  unfold extract_braces
  rw [hfind1]
  dsimp only
  rw [hdrop, hfind2]
  dsimp only
  have hj : s.length - 1 + 1 = s.length := by omega
  rw [hj, List.take_left]

lemma parse_json_response_direct {s : Str} {v : JVal}
    (h : json_loads s = some v) : parse_json_response s = v := by
  unfold parse_json_response
  rw [h]

lemma parse_json_response_fenced {s : Str} {v : JVal}
    (h1 : json_loads s = some v) (hhead : s.head? = some lb)
    (hlast : s.getLast? = some rb) (hbq : ∀ c ∈ s, c ≠ bq) :
    parse_json_response ("```json\n".data ++ s ++ "\n```".data) = v := by
  have hfail : json_loads ("```json\n".data ++ s ++ "\n```".data) = none := by
    rw [List.append_assoc]
    have hcons : "```json\n".data ++ (s ++ "\n```".data) =
        bq :: ("``json\n".data ++ (s ++ "\n```".data)) := rfl
    rw [hcons, json_loads_bq]
  unfold parse_json_response
  rw [hfail, extract_fenced_wrap s hhead hlast hbq]
  dsimp only
  rw [h1]

lemma parse_json_response_embedded {pre s post : Str} {v : JVal}
    (h1 : json_loads s = some v) (hhead : s.head? = some lb)
    (hlast : s.getLast? = some rb)
    (hpre : ∀ c ∈ pre, c ≠ lb ∧ c ≠ bq)
    (hpost : ∀ c ∈ post, c ≠ rb ∧ c ≠ bq)
    (hbq : ∀ c ∈ s, c ≠ bq)
    (hfail : json_loads (pre ++ s ++ post) = none) :
    parse_json_response (pre ++ s ++ post) = v := by
  have hopen : fence_open = bq :: "``json".data := rfl
  have hfen : extract_fenced (pre ++ s ++ post) = none := by
    unfold extract_fenced
    rw [hopen, findSub_none bq ("``json".data) _ ?_]
    intro c hc
    rcases List.mem_append.mp hc with hc' | hcp
    · rcases List.mem_append.mp hc' with hcq | hcs
      · exact (hpre c hcq).2
      · exact hbq c hcs
    · exact (hpost c hcp).2
  have hbr : extract_braces (pre ++ s ++ post) = some s :=
    extract_braces_wrap pre s post hhead hlast
      (fun c hc => (hpre c hc).1) (fun c hc => (hpost c hc).1)
  unfold parse_json_response parse_braces
  rw [hfail, hfen, hbr]
  dsimp only
  rw [h1]

lemma evaluate_section_congr (ev : Evaluator) {r1 r2 : Str}
    (h : parse_json_response r1 = parse_json_response r2) :
    evaluate_section ev r1 = evaluate_section ev r2 := by
  unfold evaluate_section
  rw [h]

lemma evaluate_section_no_score (ev : Evaluator) {response : Str}
    {kvs : List (Str × JVal)}
    (hp : parse_json_response response = JVal.obj kvs)
    (hs : dictGet ("score".data) kvs = none) :
    evaluate_section ev response =
      .ok (false, 0, msg_unparseable, JVal.str msg_format_fix) := by
  unfold evaluate_section
  rw [hp]
  cases kvs with
  | nil => rfl
  | cons a l =>
    dsimp only
    have htr : pyTruthy (JVal.obj (a :: l)) = true := rfl
    rw [htr]
    have hcont : pyContains ("score".data) (JVal.obj (a :: l)) = .ok false := by
      simp [pyContains, hs]
    rw [if_neg (by simp), hcont]
    rfl

lemma parse_json_response_all_fail {response : Str}
    (h1 : json_loads response = none)
    (h2 : ∀ i, extract_fenced response = some i → json_loads i = none)
    (h3 : ∀ t, extract_braces response = some t → json_loads t = none) :
    parse_json_response response = JVal.obj [] := by
  unfold parse_json_response parse_braces
  rw [h1]
  cases hf : extract_fenced response with
  | none =>
    cases hb : extract_braces response with
    | none => rfl
    | some t =>
      dsimp only
      rw [h3 t hb]
  | some i =>
    dsimp only
    rw [h2 i hf]
    cases hb : extract_braces response with
    | none => rfl
    | some t =>
      dsimp only
      rw [h3 t hb]

/-- C5: the judge parses the reply by the three-step fallback ladder
(whole reply as JSON; interior of a ```` ```json ```` fenced block; the
outermost brace-delimited span), and a JSON object — serialized as a
backquote-free text starting with `\x7b` and ending with `\x7d` — presented
raw, fenced, or embedded in surrounding brace-free prose yields the same
parsed object and hence the same evaluation result; a reply for which all
three steps fail parses to the empty dict, and any reply whose parsed
object lacks a `score` key (the empty dict included) evaluates, without
raising, to score 0, `passed = false` and the fixed unparseable
critique. -/
theorem parse_ladder_robust :
    (∀ (s : Str) (o : List (Str × JVal)),
      json_loads s = some (JVal.obj o) →
      s.head? = some lb → s.getLast? = some rb → (∀ c ∈ s, c ≠ bq) →
      parse_json_response s = JVal.obj o ∧
      parse_json_response ("```json\n".data ++ s ++ "\n```".data) = JVal.obj o ∧
      ∀ ev, evaluate_section ev ("```json\n".data ++ s ++ "\n```".data) =
        evaluate_section ev s) ∧
    (∀ (pre s post : Str) (o : List (Str × JVal)),
      json_loads s = some (JVal.obj o) →
      s.head? = some lb → s.getLast? = some rb →
      (∀ c ∈ pre, c ≠ lb ∧ c ≠ bq) →
      (∀ c ∈ post, c ≠ rb ∧ c ≠ bq) →
      (∀ c ∈ s, c ≠ bq) →
      json_loads (pre ++ s ++ post) = none →
      parse_json_response (pre ++ s ++ post) = JVal.obj o ∧
      ∀ ev, evaluate_section ev (pre ++ s ++ post) = evaluate_section ev s) ∧
    (∀ (response : Str),
      json_loads response = none →
      (∀ i, extract_fenced response = some i → json_loads i = none) →
      (∀ t, extract_braces response = some t → json_loads t = none) →
      parse_json_response response = JVal.obj []) ∧
    (∀ (ev : Evaluator) (response : Str) (kvs : List (Str × JVal)),
      parse_json_response response = JVal.obj kvs →
      dictGet ("score".data) kvs = none →
      evaluate_section ev response =
        .ok (false, 0, msg_unparseable, JVal.str msg_format_fix)) := by
  refine ⟨?_, ?_, ?_, ?_⟩
  · intro s o h1 hhead hlast hbq
    have hd := parse_json_response_direct h1
    have hf := parse_json_response_fenced h1 hhead hlast hbq
    exact ⟨hd, hf, fun ev => evaluate_section_congr ev (by rw [hd, hf])⟩
  · intro pre s post o h1 hhead hlast hpre hpost hbq hfail
    have hd := parse_json_response_direct h1
    have he := parse_json_response_embedded h1 hhead hlast hpre hpost hbq hfail
    exact ⟨he, fun ev => evaluate_section_congr ev (by rw [hd, he])⟩
  · intro response h1 h2 h3
    exact parse_json_response_all_fail h1 h2 h3
  · intro ev response kvs hp hs
    exact evaluate_section_no_score ev hp hs

/-- The concrete JSON object of the ladder witness. -/
def ex_ladder_json : Str := "\x7b\"score\": 95\x7d".data

/-- Its fenced presentation. -/
def ex_ladder_fenced : Str := "```json\n".data ++ ex_ladder_json ++ "\n```".data

/-- Its embedded presentation (brace-free surrounding prose). -/
def ex_ladder_embedded : Str := "裁判说：".data ++ ex_ladder_json ++ " 完毕".data

/-- A judge with the default rubric threshold, for the ladder witness. -/
def ex_ladder_judge : Evaluator := ⟨ex_rub_default, 90⟩

/-- The ladder theorem applied to a concrete score-95 object in its three
presentations, and the fallback applied to concrete unparseable text. -/
theorem parse_ladder_robust_witness :
    parse_json_response ex_ladder_json =
      JVal.obj [("score".data, JVal.num 95)] ∧
    parse_json_response ex_ladder_fenced =
      JVal.obj [("score".data, JVal.num 95)] ∧
    parse_json_response ex_ladder_embedded =
      JVal.obj [("score".data, JVal.num 95)] ∧
    evaluate_section ex_ladder_judge ex_ladder_fenced =
      evaluate_section ex_ladder_judge ex_ladder_json ∧
    evaluate_section ex_ladder_judge ex_ladder_embedded =
      evaluate_section ex_ladder_judge ex_ladder_json ∧
    parse_json_response ("评分失败，没有结构化数据".data) = JVal.obj [] ∧
    evaluate_section ex_ladder_judge ("评分失败，没有结构化数据".data) =
      .ok (false, 0, msg_unparseable, JVal.str msg_format_fix) := by
  obtain ⟨hdirect, hfenced, heval⟩ :=
    parse_ladder_robust.1 ex_ladder_json [("score".data, JVal.num 95)]
      rfl rfl rfl (by decide)
  obtain ⟨hemb, hevalemb⟩ :=
    parse_ladder_robust.2.1 ("裁判说：".data) ex_ladder_json (" 完毕".data)
      [("score".data, JVal.num 95)]
      rfl rfl rfl (by decide) (by decide) (by decide) rfl
  have hallfail := parse_ladder_robust.2.2.1 ("评分失败，没有结构化数据".data)
    rfl (fun i hi => by simp [extract_fenced] at hi; cases hi)
    (fun t ht => by simp [extract_braces] at ht; cases ht)
  have hfallback := parse_ladder_robust.2.2.2 ex_ladder_judge
    ("评分失败，没有结构化数据".data) [] hallfail rfl
  exact ⟨hdirect, hfenced, hemb, heval ex_ladder_judge,
    hevalemb ex_ladder_judge, hallfail, hfallback⟩
